import Mathlib

/-!
Verification of the chunking core of `chunk_processor.py` (class `ChunkProcessor`).

The embedding models Python text as a list of characters, the tokenizer
(`tiktoken`, an external library treated by the design as a pluggable black
box) as a function parameter `est : Str → Nat`, Python floats as the exact
rationals they denote (a `num / den` pair; no operation performed by the
program is sensitive to floating-point rounding), and the two exceptions the
core can raise (`KeyError` from the registry lookup, `ZeroDivisionError` from
`math.ceil` division) as an error type threaded through `Except`.  File I/O,
`click` printing and chunk-file writing are caller-side effects and are
dropped; the per-chunk records and the line-count validation outcome are the
observable result.
-/

/-- Text is modelled as a list of characters (Python `str`). -/
abbrev Str := List Char

/-- Python `s.count('\n')` (source lines 44, 101): newline occurrences in `s`. -/
def count_nl (s : Str) : Nat := s.count '\n'

/-- `occursAt s pat j`: the text of `s` starting at index `j` begins with `pat`
(an occurrence of `pat` at `j`, in the sense searched by Python `str.rfind`). -/
def occursAt (s pat : Str) (j : Nat) : Prop := (s.drop j).take pat.length = pat

instance (s pat : Str) (j : Nat) : Decidable (occursAt s pat j) := by
  unfold occursAt; infer_instance

/-- Helper for `rfind`: scan indices `n, n-1, ..., 0`, returning the first hit
(hence the greatest occurrence index below the initial bound). -/
def rfindAux (s pat : Str) : Nat → Option Nat
  | 0 => if occursAt s pat 0 then some 0 else none
  | j + 1 => if occursAt s pat (j + 1) then some (j + 1) else rfindAux s pat j

/-- Python `s.rfind(pat)`: the highest index at which `pat` occurs in `s`;
`none` models Python's `-1` (not found). -/
def rfind (s pat : Str) : Option Nat := rfindAux s pat s.length

/-- Source lines 90-92: `split_point = max(chunk.rfind('.\n'), chunk.rfind('\n\n'))`,
with `none` playing the role of `-1` (so `max` against an absent side keeps the
other side, and `none/none` is Python's `-1`). -/
def split_point (chunk : Str) : Option Nat :=
  match rfind chunk ['.', '\n'], rfind chunk ['\n', '\n'] with
  | some a, some b => some (max a b)
  | some a, none => some a
  | none, some b => some b
  | none, none => none

/-- Source lines 90-96: boundary adjustment for a non-final chunk whose naive
end `end_pos` lands before the end of text.  When a marker is found in the
proposed chunk `content[current_pos:end_pos]`, the end moves to
`current_pos + split_point + 2`; otherwise the naive end is kept. -/
def adjust_end (content : Str) (current_pos end_pos : Nat) : Nat :=
  match split_point ((content.drop current_pos).take (end_pos - current_pos)) with
  | some sp => current_pos + sp + 2
  | none => end_pos

/-- One loop step of `process_file` (source lines 86-96): the end position of
the chunk starting at `current_pos`, where `i` is the Python loop index.  The
naive end is `min(current_pos + chunk_size, len(content))`; it is adjusted only
when this is not the final planned chunk and the naive end is strictly inside
the text. -/
def step_end (content : Str) (chunk_size num_chunks i current_pos : Nat) : Nat :=
  if i < num_chunks - 1 ∧ min (current_pos + chunk_size) content.length < content.length then
    adjust_end content current_pos (min (current_pos + chunk_size) content.length)
  else
    min (current_pos + chunk_size) content.length

/-- One materialized chunk (the source dict of lines 105-111; the output file
path is dropped, and `start`/`stop` record the loop's `current_pos`/`end_pos`
so that range properties can be stated). -/
structure ChunkInfo where
  start : Nat
  stop : Nat
  content : Str
  chars : Nat
  lines : Nat
  tokens : Nat
deriving DecidableEq

/-- The record for the chunk `content[start:stop]` (source lines 98-111);
`tokens` applies the black-box estimator to the chunk text. -/
def mkChunk (est : Str → Nat) (content : Str) (start stop : Nat) : ChunkInfo :=
  { start := start, stop := stop
    content := (content.drop start).take (stop - start)
    chars := ((content.drop start).take (stop - start)).length
    lines := count_nl ((content.drop start).take (stop - start))
    tokens := est ((content.drop start).take (stop - start)) }

/-- The chunking loop (source lines 81-120), recursing on the number of
remaining iterations (`fuel`); the current Python loop index is
`i = num_chunks - fuel`.  The loop breaks as soon as
`current_pos >= len(content)`. -/
def chunkLoopGo (est : Str → Nat) (content : Str) (chunk_size num_chunks : Nat) :
    Nat → Nat → List ChunkInfo
  | 0, _ => []
  | fuel + 1, current_pos =>
    if content.length ≤ current_pos then []
    else
      mkChunk est content current_pos
          (step_end content chunk_size num_chunks (num_chunks - (fuel + 1)) current_pos) ::
        chunkLoopGo est content chunk_size num_chunks fuel
          (step_end content chunk_size num_chunks (num_chunks - (fuel + 1)) current_pos)

/-- The exceptions the embedded core can raise: `KeyError` from the
model-registry lookup (line 31) and `ZeroDivisionError` from `math.ceil`
division (lines 64 and 75). -/
inductive PyError where
  | keyError
  | zeroDivisionError
deriving DecidableEq

deriving instance DecidableEq for Except

/-- A Python float modelled as the exact rational `num / den` it denotes
(`den > 0` for every value the program uses).  The float `0.0` is exactly
`num = 0`; no operation the program performs on these values is sensitive to
binary floating-point rounding. -/
structure PyFloat where
  num : Int
  den : Nat
deriving DecidableEq

/-- Python `int(x)` for the exact rational `x = a / d` (`d > 0`): truncation
toward zero. -/
def pyTrunc (a : Int) (d : Nat) : Int :=
  if 0 ≤ a then ((a.toNat / d : Nat) : Int) else -(((-a).toNat / d : Nat) : Int)

/-- Python `math.ceil(a / b)` on integers with `b ≠ 0`: negated floor division
of the negated numerator. -/
def ceilQ (a b : Int) : Int := -((-a).fdiv b)

/-- Source line 12: `DEFAULT_SAFETY_FACTOR = 0.5`. -/
def DEFAULT_SAFETY_FACTOR : PyFloat := ⟨1, 2⟩

/-- Source lines 22-26:
`self.safety_factor = safety_factor or float(os.getenv('CHUNK_SAFETY_FACTOR', DEFAULT_SAFETY_FACTOR))`.
Python `x or y` yields `y` when `x` is `None` or the falsy float `0.0`.
`env` is the parsed value of the `CHUNK_SAFETY_FACTOR` environment variable,
when it is set. -/
def init_safety_factor : Option PyFloat → Option PyFloat → PyFloat
  | none, env => env.getD DEFAULT_SAFETY_FACTOR
  | some f, env => if f.num = 0 then env.getD DEFAULT_SAFETY_FACTOR else f

/-- Source lines 17-21: the static model registry `self.context_limits`. -/
def context_limits : List (String × Int) :=
  [("claude-3-sonnet-20240229", 200000), ("gpt-4", 8192), ("gpt-3.5-turbo", 4096)]

/-- Source lines 29-32: `int(self.context_limits[self.model] * self.safety_factor)`.
A model name absent from the registry raises `KeyError`. -/
def get_effective_limit (model : String) (safety_factor : PyFloat) : Except PyError Int :=
  match context_limits.lookup model with
  | none => .error .keyError
  | some base_limit => .ok (pyTrunc (base_limit * safety_factor.num) safety_factor.den)

/-- Source lines 63-66: `min_chunks = math.ceil(total_tokens / effective_limit)`
and `num_chunks = min_chunks if num_chunks is None or num_chunks < min_chunks`.
Meaningful only for `effective_limit ≠ 0` (the zero case raises earlier). -/
def num_chunks_planned (total_tokens : Nat) (effective_limit : Int) (req : Option Int) : Int :=
  match req with
  | none => ceilQ total_tokens effective_limit
  | some n =>
    if n < ceilQ total_tokens effective_limit then ceilQ total_tokens effective_limit else n

/-- `total_chunk_lines` (source lines 79, 102): sum of the per-chunk line counts. -/
def total_lines (chunks : List ChunkInfo) : Nat := (chunks.map (fun c => c.lines)).sum

/-- The observable outcome of a successful `process_file` run: the chunk
records plus the line-count validation verdict (source lines 122-127);
`lines_warning = some d` models the non-fatal warning printed with discrepancy
`d = original_lines - total_chunk_lines`, and `none` means no warning. -/
structure ProcessResult where
  chunks : List ChunkInfo
  original_lines : Nat
  total_chunk_lines : Nat
  lines_warning : Option Int
deriving DecidableEq

/-- Chunking plus validation for a fixed plan (source lines 74-127). -/
def mkResult (est : Str → Nat) (content : Str) (chunk_size num_chunks : Nat) : ProcessResult :=
  { chunks := chunkLoopGo est content chunk_size num_chunks num_chunks 0
    original_lines := count_nl content
    total_chunk_lines := total_lines (chunkLoopGo est content chunk_size num_chunks num_chunks 0)
    lines_warning :=
      if count_nl content = total_lines (chunkLoopGo est content chunk_size num_chunks num_chunks 0)
      then none
      else some ((count_nl content : Int)
        - (total_lines (chunkLoopGo est content chunk_size num_chunks num_chunks 0) : Int)) }

/-- `ChunkProcessor.process_file` (source lines 38-132) on already-decoded text
`content` (reading the file, printing and chunk-file writing are caller I/O and
are dropped).  `est` is `estimate_tokens` with the tokenizer as a black box,
`req` the optional requested chunk count.  A zero effective limit makes
`math.ceil(total_tokens / effective_limit)` (line 64) raise
`ZeroDivisionError`; a planned chunk count of zero makes
`math.ceil(len(content) / num_chunks)` (line 75) raise `ZeroDivisionError`;
negative planned counts make `range(num_chunks)` empty. -/
def process_file (est : Str → Nat) (model : String) (safety_factor : PyFloat)
    (content : Str) (req : Option Int) : Except PyError ProcessResult :=
  match get_effective_limit model safety_factor with
  | .error e => .error e
  | .ok effective_limit =>
    if effective_limit = 0 then .error .zeroDivisionError
    else if num_chunks_planned (est content) effective_limit req = 0 then
      .error .zeroDivisionError
    else
      .ok (mkResult est content
        (ceilQ content.length (num_chunks_planned (est content) effective_limit req)).toNat
        (num_chunks_planned (est content) effective_limit req).toNat)

/-- Concatenation of the chunk texts, in order. -/
def concatContents (chunks : List ChunkInfo) : Str :=
  chunks.foldr (fun c acc => c.content ++ acc) []

/-- The produced ranges are contiguous starting from `pos`: the first chunk
starts at `pos` and each chunk ends exactly where the next one starts. -/
def chunksContiguousFrom : Nat → List ChunkInfo → Prop
  | _, [] => True
  | pos, c :: rest => c.start = pos ∧ chunksContiguousFrom c.stop rest

/-- End position of the last chunk of the list (`pos` when there is none). -/
def lastStop : Nat → List ChunkInfo → Nat
  | pos, [] => pos
  | _, c :: rest => lastStop c.stop rest

/-- A sentence-end (`".\n"`) or paragraph-break (`"\n\n"`) marker occurs in
`chunk` at index `j`. -/
def isMarkerAt (chunk : Str) (j : Nat) : Prop :=
  occursAt chunk ['.', '\n'] j ∨ occursAt chunk ['\n', '\n'] j

instance (chunk : Str) (j : Nat) : Decidable (isMarkerAt chunk j) := by
  unfold isMarkerAt; infer_instance

/-- `j` is the offset of the last marker occurrence in `chunk`: a marker occurs
at `j` and none occurs later.  This is the larger of the last occurrence of
each of the two markers. -/
def isLastMarker (chunk : Str) (j : Nat) : Prop :=
  isMarkerAt chunk j ∧ ∀ k, j < k → ¬ isMarkerAt chunk k

/-! Concrete inputs and results used by counterexamples and witnesses. -/

/-- 20-character text whose first marker sits at offset 0 of the first chunk. -/
def c1Text : Str := ".\nabcdefghijklmnopqr".toList

/-- Scenario-1 text `"A.\nB.\nC.\n"`. -/
def c1wText : Str := "A.\nB.\nC.\n".toList

/-- Result of splitting `c1wText` into one chunk. -/
def c1wRes : ProcessResult := ⟨[⟨0, 9, "A.\nB.\nC.\n".toList, 9, 3, 9⟩], 3, 3, none⟩

/-- Ten characters with no marker. -/
def c2Text : Str := "0123456789".toList

/-- Ten characters with no marker. -/
def c3Text : Str := "abcdefghij".toList

/-- Four characters with no marker. -/
def c3wText : Str := "wxyz".toList

/-- Result of splitting `c3wText` into one chunk. -/
def c3wRes : ProcessResult := ⟨[⟨0, 4, "wxyz".toList, 4, 0, 4⟩], 0, 0, none⟩

/-- Ten characters whose only marker `".\n"` sits at offset 2. -/
def c5wText : Str := "ab.\ncdefXY".toList

/-- Four characters with one newline. -/
def c6Text : Str := "a.\nb".toList

/-- Result of splitting `c6Text` into one chunk. -/
def c6Res : ProcessResult := ⟨[⟨0, 4, "a.\nb".toList, 4, 1, 4⟩], 1, 1, none⟩

/-- Six characters with no marker. -/
def c8Text : Str := "abcdef".toList

/-- Result of splitting `c8Text` into one chunk. -/
def c8Res1 : ProcessResult := ⟨[⟨0, 6, "abcdef".toList, 6, 0, 6⟩], 0, 0, none⟩

/-- Result of splitting `c8Text` into two chunks. -/
def c8Res2 : ProcessResult :=
  ⟨[⟨0, 3, "abc".toList, 3, 0, 3⟩, ⟨3, 6, "def".toList, 3, 0, 3⟩], 0, 0, none⟩

/-- Four characters with no marker. -/
def c10Text : Str := "abcd".toList

/-- Result of splitting `c10Text` into two chunks. -/
def c10Res : ProcessResult :=
  ⟨[⟨0, 2, "ab".toList, 2, 0, 2⟩, ⟨2, 4, "cd".toList, 2, 0, 2⟩], 0, 0, none⟩

/-! Helper lemmas about the marker search. -/

/-- An occurrence of a non-empty pattern fits inside the text. -/
lemma occursAt_length_le (s pat : Str) (j : Nat) (hp : pat ≠ []) (h : occursAt s pat j) :
    j + pat.length ≤ s.length := by
  have hlen := congrArg List.length h
  rw [List.length_take, List.length_drop] at hlen
  have hp' : 0 < pat.length := List.length_pos.mpr hp
  have h2 : pat.length ⊓ (s.length - j) ≤ s.length - j := inf_le_right
  omega

lemma rfindAux_some_occurs (s pat : Str) :
    ∀ n j, rfindAux s pat n = some j → occursAt s pat j := by
  intro n
  induction n with
  | zero =>
    intro j h
    by_cases hocc : occursAt s pat 0
    · rw [rfindAux, if_pos hocc] at h
      exact (Option.some_inj.mp h) ▸ hocc
    · rw [rfindAux, if_neg hocc] at h
      exact absurd h (by simp)
  | succ m ih =>
    intro j h
    by_cases hocc : occursAt s pat (m + 1)
    · rw [rfindAux, if_pos hocc] at h
      exact (Option.some_inj.mp h) ▸ hocc
    · rw [rfindAux, if_neg hocc] at h
      exact ih j h

lemma rfindAux_greatest (s pat : Str) :
    ∀ n j k, rfindAux s pat n = some j → j < k → k ≤ n → ¬ occursAt s pat k := by
  intro n
  induction n with
  | zero =>
    intro j k _ hjk hk
    exact absurd hjk (by omega)
  | succ m ih =>
    intro j k h hjk hk
    by_cases hocc : occursAt s pat (m + 1)
    · rw [rfindAux, if_pos hocc] at h
      have hj := Option.some_inj.mp h
      intro _
      omega
    · rw [rfindAux, if_neg hocc] at h
      by_cases hkm : k ≤ m
      · exact ih j k h hjk hkm
      · have hk1 : k = m + 1 := by omega
        subst hk1
        exact hocc

lemma rfindAux_none_not_occurs (s pat : Str) :
    ∀ n k, rfindAux s pat n = none → k ≤ n → ¬ occursAt s pat k := by
  intro n
  induction n with
  | zero =>
    intro k h hk
    by_cases hocc : occursAt s pat 0
    · rw [rfindAux, if_pos hocc] at h
      exact absurd h (by simp)
    · have hk0 : k = 0 := by omega
      subst hk0
      exact hocc
  | succ m ih =>
    intro k h hk
    by_cases hocc : occursAt s pat (m + 1)
    · rw [rfindAux, if_pos hocc] at h
      exact absurd h (by simp)
    · rw [rfindAux, if_neg hocc] at h
      by_cases hkm : k ≤ m
      · exact ih k h hkm
      · have hk1 : k = m + 1 := by omega
        subst hk1
        exact hocc

lemma rfind_occurs (s pat : Str) (j : Nat) (h : rfind s pat = some j) : occursAt s pat j :=
  rfindAux_some_occurs s pat s.length j h

lemma rfind_greatest (s pat : Str) (hp : pat ≠ []) (j : Nat) (h : rfind s pat = some j) :
    ∀ k, j < k → ¬ occursAt s pat k := by
  intro k hjk hocc
  have hk := occursAt_length_le s pat k hp hocc
  have hp' : 0 < pat.length := List.length_pos.mpr hp
  exact rfindAux_greatest s pat s.length j k h hjk (by omega) hocc

lemma rfind_none_not_occurs (s pat : Str) (hp : pat ≠ []) (h : rfind s pat = none) :
    ∀ k, ¬ occursAt s pat k := by
  intro k hocc
  have hk := occursAt_length_le s pat k hp hocc
  have hp' : 0 < pat.length := List.length_pos.mpr hp
  exact rfindAux_none_not_occurs s pat s.length k h (by omega) hocc

/-- A found `split_point` is the last marker occurrence in the chunk. -/
lemma split_point_isLastMarker (chunk : Str) (sp : Nat) (h : split_point chunk = some sp) :
    isLastMarker chunk sp := by
  unfold split_point at h
  cases hp : rfind chunk ['.', '\n'] with
  | some a =>
    cases hn : rfind chunk ['\n', '\n'] with
    | some b =>
      rw [hp, hn] at h
      have hsp : sp = max a b := (Option.some_inj.mp h).symm
      subst hsp
      have hma := Nat.le_max_left a b
      have hmb := Nat.le_max_right a b
      constructor
      · rcases Nat.le_total a b with hab | hab
        · rw [Nat.max_eq_right hab]
          exact Or.inr (rfind_occurs _ _ _ hn)
        · rw [Nat.max_eq_left hab]
          exact Or.inl (rfind_occurs _ _ _ hp)
      · intro k hk hmk
        rcases hmk with h1 | h1
        · exact rfind_greatest _ _ (by decide) a hp k (by omega) h1
        · exact rfind_greatest _ _ (by decide) b hn k (by omega) h1
    | none =>
      rw [hp, hn] at h
      have hsp : sp = a := (Option.some_inj.mp h).symm
      subst hsp
      constructor
      · exact Or.inl (rfind_occurs _ _ _ hp)
      · intro k hk hmk
        rcases hmk with h1 | h1
        · exact rfind_greatest _ _ (by decide) sp hp k hk h1
        · exact rfind_none_not_occurs _ _ (by decide) hn k h1
  | none =>
    cases hn : rfind chunk ['\n', '\n'] with
    | some b =>
      rw [hp, hn] at h
      have hsp : sp = b := (Option.some_inj.mp h).symm
      subst hsp
      constructor
      · exact Or.inr (rfind_occurs _ _ _ hn)
      · intro k hk hmk
        rcases hmk with h1 | h1
        · exact rfind_none_not_occurs _ _ (by decide) hp k h1
        · exact rfind_greatest _ _ (by decide) sp hn k hk h1
    | none =>
      rw [hp, hn] at h
      exact absurd h (by simp)

/-- An absent `split_point` means no marker occurs in the chunk. -/
lemma split_point_none_not_marker (chunk : Str) (h : split_point chunk = none) :
    ∀ k, ¬ isMarkerAt chunk k := by
  unfold split_point at h
  cases hp : rfind chunk ['.', '\n'] with
  | some a =>
    cases hn : rfind chunk ['\n', '\n'] with
    | some b => rw [hp, hn] at h; exact absurd h (by simp)
    | none => rw [hp, hn] at h; exact absurd h (by simp)
  | none =>
    cases hn : rfind chunk ['\n', '\n'] with
    | some b => rw [hp, hn] at h; exact absurd h (by simp)
    | none =>
      intro k hmk
      rcases hmk with h1 | h1
      · exact rfind_none_not_occurs _ _ (by decide) hp k h1
      · exact rfind_none_not_occurs _ _ (by decide) hn k h1

/-- A found `split_point` leaves room for the 2-character marker. -/
lemma split_point_add_two_le (chunk : Str) (sp : Nat) (h : split_point chunk = some sp) :
    sp + 2 ≤ chunk.length := by
  rcases (split_point_isLastMarker chunk sp h).1 with h1 | h1
  · exact occursAt_length_le _ _ _ (by decide) h1
  · exact occursAt_length_le _ _ _ (by decide) h1

/-! Helper lemmas about the boundary adjustment and the loop step. -/

/-- Adjustment never moves an end before the chunk start or past the naive end. -/
lemma adjust_end_bounds (content : Str) (pos e : Nat) (hpe : pos ≤ e)
    (_he : e ≤ content.length) :
    pos ≤ adjust_end content pos e ∧ adjust_end content pos e ≤ e := by
  cases hsp : split_point ((content.drop pos).take (e - pos)) with
  | none =>
    have hadj : adjust_end content pos e = e := by
      unfold adjust_end; rw [hsp]
    rw [hadj]
    exact ⟨hpe, le_rfl⟩
  | some sp =>
    have hadj : adjust_end content pos e = pos + sp + 2 := by
      unfold adjust_end; rw [hsp]
    have hle := split_point_add_two_le _ _ hsp
    rw [List.length_take, List.length_drop] at hle
    have hmin : (e - pos) ⊓ (content.length - pos) ≤ e - pos := inf_le_left
    rw [hadj]
    exact ⟨by omega, by omega⟩

/-- Adjustment of a non-degenerate chunk keeps the end strictly past the start. -/
lemma lt_adjust_end (content : Str) (pos e : Nat) (hpe : pos < e) :
    pos < adjust_end content pos e := by
  cases hsp : split_point ((content.drop pos).take (e - pos)) with
  | none =>
    have hadj : adjust_end content pos e = e := by
      unfold adjust_end; rw [hsp]
    rw [hadj]
    exact hpe
  | some sp =>
    have hadj : adjust_end content pos e = pos + sp + 2 := by
      unfold adjust_end; rw [hsp]
    rw [hadj]
    omega

/-- When the chunk has a last marker at `j`, adjustment lands 2 characters past it. -/
lemma adjust_end_eq_of_isLastMarker (content : Str) (pos e j : Nat)
    (h : isLastMarker ((content.drop pos).take (e - pos)) j) :
    adjust_end content pos e = pos + j + 2 := by
  cases hsp : split_point ((content.drop pos).take (e - pos)) with
  | none => exact absurd h.1 (split_point_none_not_marker _ hsp j)
  | some sp =>
    have hadj : adjust_end content pos e = pos + sp + 2 := by
      unfold adjust_end; rw [hsp]
    have hl := split_point_isLastMarker _ _ hsp
    have hspj : sp = j := by
      rcases Nat.lt_trichotomy sp j with h' | h' | h'
      · exact absurd h.1 (hl.2 j h')
      · exact h'
      · exact absurd hl.1 (h.2 sp h')
    rw [hadj, hspj]

/-- When the chunk has no marker, adjustment keeps the naive end. -/
lemma adjust_end_eq_of_no_marker (content : Str) (pos e : Nat)
    (h : ∀ j, ¬ isMarkerAt ((content.drop pos).take (e - pos)) j) :
    adjust_end content pos e = e := by
  cases hsp : split_point ((content.drop pos).take (e - pos)) with
  | none => unfold adjust_end; rw [hsp]
  | some sp => exact absurd (split_point_isLastMarker _ _ hsp).1 (h sp)

/-- The step end stays between the chunk start and the naive end. -/
lemma step_end_bounds (content : Str) (cs nc i pos : Nat) (hpos : pos < content.length) :
    pos ≤ step_end content cs nc i pos ∧
    step_end content cs nc i pos ≤ min (pos + cs) content.length := by
  unfold step_end
  have hpe : pos ≤ min (pos + cs) content.length :=
    le_min (Nat.le_add_right _ _) (Nat.le_of_lt hpos)
  split
  · exact adjust_end_bounds content pos (min (pos + cs) content.length) hpe (min_le_right _ _)
  · exact ⟨hpe, le_rfl⟩

/-- With a positive chunk size the step makes strict forward progress. -/
lemma lt_step_end (content : Str) (cs nc i pos : Nat) (hcs : 1 ≤ cs)
    (hpos : pos < content.length) :
    pos < step_end content cs nc i pos := by
  unfold step_end
  have hlt : pos < min (pos + cs) content.length := lt_min (by omega) hpos
  split
  · exact lt_adjust_end content pos _ hlt
  · exact hlt

/-! Helper lemmas about the chunking loop. -/

/-- The loop produces contiguous ranges starting at the current position. -/
lemma chunkLoopGo_contig (est : Str → Nat) (content : Str) (cs nc : Nat) :
    ∀ fuel pos, chunksContiguousFrom pos (chunkLoopGo est content cs nc fuel pos) := by
  intro fuel
  induction fuel with
  | zero => intro pos; rw [chunkLoopGo]; trivial
  | succ m ih =>
    intro pos
    rw [chunkLoopGo]
    by_cases hpos : content.length ≤ pos
    · rw [if_pos hpos]; trivial
    · rw [if_neg hpos]
      exact ⟨rfl, ih _⟩

/-- The last end never retreats before the start and never passes the text end. -/
lemma chunkLoopGo_lastStop (est : Str → Nat) (content : Str) (cs nc : Nat) :
    ∀ fuel pos, pos ≤ content.length →
      pos ≤ lastStop pos (chunkLoopGo est content cs nc fuel pos) ∧
      lastStop pos (chunkLoopGo est content cs nc fuel pos) ≤ content.length := by
  intro fuel
  induction fuel with
  | zero => intro pos h; rw [chunkLoopGo]; exact ⟨le_rfl, h⟩
  | succ m ih =>
    intro pos h
    rw [chunkLoopGo]
    by_cases hpos : content.length ≤ pos
    · rw [if_pos hpos]; exact ⟨le_rfl, h⟩
    · rw [if_neg hpos]
      have hb := step_end_bounds content cs nc (nc - (m + 1)) pos (by omega)
      have hse : step_end content cs nc (nc - (m + 1)) pos ≤ content.length :=
        le_trans hb.2 (min_le_right _ _)
      have hrec := ih (step_end content cs nc (nc - (m + 1)) pos) hse
      exact ⟨le_trans hb.1 hrec.1, hrec.2⟩

/-- The loop emits at most `fuel` chunks. -/
lemma chunkLoopGo_length_le (est : Str → Nat) (content : Str) (cs nc : Nat) :
    ∀ fuel pos, (chunkLoopGo est content cs nc fuel pos).length ≤ fuel := by
  intro fuel
  induction fuel with
  | zero => intro pos; rw [chunkLoopGo]; simp
  | succ m ih =>
    intro pos
    rw [chunkLoopGo]
    by_cases hpos : content.length ≤ pos
    · rw [if_pos hpos]; simp
    · rw [if_neg hpos]
      simpa using ih (step_end content cs nc (nc - (m + 1)) pos)

/-- Per-chunk facts: the chunk text is the slice named by its range, ranges stay
inside the text, spans are at most `chunk_size`, and the derived metrics match
the chunk text. -/
lemma chunkLoopGo_mem (est : Str → Nat) (content : Str) (cs nc : Nat) :
    ∀ fuel pos, pos ≤ content.length →
      ∀ c ∈ chunkLoopGo est content cs nc fuel pos,
        c.content = (content.drop c.start).take (c.stop - c.start) ∧
        c.stop ≤ content.length ∧ c.start ≤ c.stop ∧ c.stop - c.start ≤ cs ∧
        c.content.length = c.stop - c.start ∧
        c.lines = count_nl c.content ∧ c.chars = c.content.length ∧
        c.tokens = est c.content := by
  intro fuel
  induction fuel with
  | zero =>
    intro pos h c hc
    rw [chunkLoopGo] at hc
    exact absurd hc (List.not_mem_nil c)
  | succ m ih =>
    intro pos h c hc
    rw [chunkLoopGo] at hc
    by_cases hpos : content.length ≤ pos
    · rw [if_pos hpos] at hc
      exact absurd hc (List.not_mem_nil c)
    · rw [if_neg hpos] at hc
      have hb := step_end_bounds content cs nc (nc - (m + 1)) pos (by omega)
      have hse : step_end content cs nc (nc - (m + 1)) pos ≤ content.length :=
        le_trans hb.2 (min_le_right _ _)
      have hcsle : step_end content cs nc (nc - (m + 1)) pos ≤ pos + cs :=
        le_trans hb.2 (min_le_left _ _)
      rcases List.mem_cons.mp hc with rfl | hc'
      · refine ⟨rfl, hse, hb.1, ?_, ?_, rfl, rfl, rfl⟩
        · show step_end content cs nc (nc - (m + 1)) pos - pos ≤ cs
          omega
        · show ((content.drop pos).take (step_end content cs nc (nc - (m + 1)) pos - pos)).length
            = step_end content cs nc (nc - (m + 1)) pos - pos
          rw [List.length_take, List.length_drop]
          exact inf_eq_left.mpr (by omega)
      · exact ih _ hse c hc'

/-- With a positive chunk size every emitted chunk is a non-empty range. -/
lemma chunkLoopGo_start_lt_stop (est : Str → Nat) (content : Str) (cs nc : Nat)
    (hcs : 1 ≤ cs) :
    ∀ fuel pos, ∀ c ∈ chunkLoopGo est content cs nc fuel pos, c.start < c.stop := by
  intro fuel
  induction fuel with
  | zero =>
    intro pos c hc
    rw [chunkLoopGo] at hc
    exact absurd hc (List.not_mem_nil c)
  | succ m ih =>
    intro pos c hc
    rw [chunkLoopGo] at hc
    by_cases hpos : content.length ≤ pos
    · rw [if_pos hpos] at hc
      exact absurd hc (List.not_mem_nil c)
    · rw [if_neg hpos] at hc
      rcases List.mem_cons.mp hc with rfl | hc'
      · exact lt_step_end content cs nc _ pos hcs (by omega)
      · exact ih _ c hc'

/-- The loop output concatenates to the slice of the text from the starting
position up to the last emitted end. -/
lemma chunkLoopGo_concat (est : Str → Nat) (content : Str) (cs nc : Nat) :
    ∀ fuel pos, pos ≤ content.length →
      concatContents (chunkLoopGo est content cs nc fuel pos)
        = (content.drop pos).take (lastStop pos (chunkLoopGo est content cs nc fuel pos) - pos) := by
  intro fuel
  induction fuel with
  | zero => intro pos h; rw [chunkLoopGo]; simp [concatContents, lastStop]
  | succ m ih =>
    intro pos h
    rw [chunkLoopGo]
    by_cases hpos : content.length ≤ pos
    · rw [if_pos hpos]; simp [concatContents, lastStop]
    · rw [if_neg hpos]
      have hb := step_end_bounds content cs nc (nc - (m + 1)) pos (by omega)
      have hse : step_end content cs nc (nc - (m + 1)) pos ≤ content.length :=
        le_trans hb.2 (min_le_right _ _)
      have hpe : pos ≤ step_end content cs nc (nc - (m + 1)) pos := hb.1
      have hlsp := chunkLoopGo_lastStop est content cs nc m
        (step_end content cs nc (nc - (m + 1)) pos) hse
      show (content.drop pos).take (step_end content cs nc (nc - (m + 1)) pos - pos)
        ++ concatContents (chunkLoopGo est content cs nc m (step_end content cs nc (nc - (m + 1)) pos))
        = (content.drop pos).take
            (lastStop (step_end content cs nc (nc - (m + 1)) pos)
              (chunkLoopGo est content cs nc m (step_end content cs nc (nc - (m + 1)) pos)) - pos)
      rw [ih (step_end content cs nc (nc - (m + 1)) pos) hse]
      have hsum : lastStop (step_end content cs nc (nc - (m + 1)) pos)
            (chunkLoopGo est content cs nc m (step_end content cs nc (nc - (m + 1)) pos)) - pos
          = (step_end content cs nc (nc - (m + 1)) pos - pos)
            + (lastStop (step_end content cs nc (nc - (m + 1)) pos)
                (chunkLoopGo est content cs nc m (step_end content cs nc (nc - (m + 1)) pos))
              - step_end content cs nc (nc - (m + 1)) pos) := by
        have h1 := hlsp.1
        omega
      rw [hsum, List.take_add, List.drop_drop]
      have hpp : pos + (step_end content cs nc (nc - (m + 1)) pos - pos)
          = step_end content cs nc (nc - (m + 1)) pos := by omega
      rw [hpp]

/-- On empty text the loop emits nothing. -/
lemma chunkLoopGo_nil (est : Str → Nat) (cs nc : Nat) :
    ∀ fuel pos, chunkLoopGo est ([] : Str) cs nc fuel pos = [] := by
  intro fuel pos
  cases fuel with
  | zero => rw [chunkLoopGo]
  | succ m => rw [chunkLoopGo]; simp

/-! Helper lemmas about `process_file` dispatch. -/

/-- `process_file` under a successful limit lookup. -/
lemma process_file_of_limit (est : Str → Nat) (model : String) (sf : PyFloat) (content : Str)
    (req : Option Int) (limit : Int) (h : get_effective_limit model sf = .ok limit) :
    process_file est model sf content req =
      (if limit = 0 then .error .zeroDivisionError
       else if num_chunks_planned (est content) limit req = 0 then .error .zeroDivisionError
       else .ok (mkResult est content
         (ceilQ content.length (num_chunks_planned (est content) limit req)).toNat
         (num_chunks_planned (est content) limit req).toNat)) := by
  unfold process_file
  rw [h]

/-- `process_file` under a failed limit lookup. -/
lemma process_file_of_err (est : Str → Nat) (model : String) (sf : PyFloat) (content : Str)
    (req : Option Int) (e : PyError) (h : get_effective_limit model sf = .error e) :
    process_file est model sf content req = .error e := by
  unfold process_file
  rw [h]

/-- Inversion of a successful `process_file` run. -/
lemma process_file_ok (est : Str → Nat) (model : String) (sf : PyFloat) (content : Str)
    (req : Option Int) (r : ProcessResult)
    (h : process_file est model sf content req = .ok r) :
    ∃ limit : Int, get_effective_limit model sf = .ok limit ∧ limit ≠ 0 ∧
      num_chunks_planned (est content) limit req ≠ 0 ∧
      r = mkResult est content
            (ceilQ content.length (num_chunks_planned (est content) limit req)).toNat
            (num_chunks_planned (est content) limit req).toNat := by
  cases hg : get_effective_limit model sf with
  | error e =>
    rw [process_file_of_err est model sf content req e hg] at h
    exact absurd h (by simp)
  | ok limit =>
    rw [process_file_of_limit est model sf content req limit hg] at h
    by_cases h0 : limit = 0
    · rw [if_pos h0] at h
      exact absurd h (by simp)
    · rw [if_neg h0] at h
      by_cases hn : num_chunks_planned (est content) limit req = 0
      · rw [if_pos hn] at h
        exact absurd h (by simp)
      · rw [if_neg hn] at h
        exact ⟨limit, rfl, h0, hn, (Except.ok.inj h).symm⟩

/-- A positive numerator over a positive divisor has ceiling at least one. -/
lemma one_le_ceilQ (a : Nat) (b : Int) (ha : 1 ≤ a) (hb : 1 ≤ b) : 1 ≤ ceilQ (a : Int) b := by
  unfold ceilQ
  rw [Int.fdiv_eq_ediv _ (by omega)]
  have h2 : (-(a : Int)) / b < 0 := by
    rw [Int.ediv_lt_iff_lt_mul (by omega)]
    simp
    omega
  omega

/-- The validation verdict of `mkResult`, phrased on its own projections. -/
lemma mkResult_warning (est : Str → Nat) (content : Str) (cs n : Nat) :
    (mkResult est content cs n).lines_warning
      = if (mkResult est content cs n).original_lines
          = (mkResult est content cs n).total_chunk_lines
        then none
        else some (((mkResult est content cs n).original_lines : Int)
          - ((mkResult est content cs n).total_chunk_lines : Int)) := rfl

/-! Claim theorems. -/

/-- C1 (counterexample): the coverage claim fails on the code.  On the
20-character text `c1Text` split into 2 chunks (limit huge, so the plan honours
the request), boundary adjustment moves the first chunk's end back to 2, and
the final chunk then ends at `min(2 + 10, 20) = 12`, not at `len(text) = 20`:
the produced ranges are `[(0,2), (2,12)]`, concatenation of the chunk texts
does not reproduce the input, and 8 characters are silently dropped. -/
theorem C1_counterexample :
    (process_file (fun s => s.length) "claude-3-sonnet-20240229" ⟨1, 2⟩ c1Text (some 2)).map
        (fun r => (r.chunks.map fun c => (c.start, c.stop), concatContents r.chunks == c1Text))
      = .ok ([(0, 2), (2, 12)], false) ∧ c1Text.length = 20 := by
  decide

/-- C1 (amended): for every successful `process_file` run the produced ranges
are contiguous half-open ranges with `chunk[0].start = 0` and
`chunk[i].end = chunk[i+1].start` (no gap, no overlap), and concatenating the
chunk texts in order reproduces the prefix `text[0:lastStop]` of the input; but
the last produced chunk may end before `len(text)`, so the tail of the text can
be truncated (the original claim's last-chunk and full-coverage parts are
false, witness `C1_counterexample`). -/
theorem C1_coverage_amended (est : Str → Nat) (model : String) (sf : PyFloat) (content : Str)
    (req : Option Int) (r : ProcessResult)
    (h : process_file est model sf content req = .ok r) :
    chunksContiguousFrom 0 r.chunks ∧
    lastStop 0 r.chunks ≤ content.length ∧
    concatContents r.chunks = content.take (lastStop 0 r.chunks) := by
  obtain ⟨limit, hg, h0, hn, hr⟩ := process_file_ok est model sf content req r h
  subst hr
  refine ⟨chunkLoopGo_contig est content _ _ _ 0,
    (chunkLoopGo_lastStop est content _ _ _ 0 (Nat.zero_le _)).2, ?_⟩
  have hc := chunkLoopGo_concat est content
    (ceilQ content.length (num_chunks_planned (est content) limit req)).toNat
    (num_chunks_planned (est content) limit req).toNat
    (num_chunks_planned (est content) limit req).toNat 0 (Nat.zero_le _)
  simpa using hc

/-- C1 (witness for the amended theorem): the scenario-1 run, one chunk over
`"A.\nB.\nC.\n"`. -/
theorem C1_coverage_amended_witness :
    chunksContiguousFrom 0 c1wRes.chunks ∧
    lastStop 0 c1wRes.chunks ≤ c1wText.length ∧
    concatContents c1wRes.chunks = c1wText.take (lastStop 0 c1wRes.chunks) :=
  C1_coverage_amended (fun s => s.length) "claude-3-sonnet-20240229" ⟨1, 2⟩ c1wText
    (some 1) c1wRes (by decide)

/-- C2 (counterexample): a non-positive effective limit does not uniformly make
planning fail.  With model `gpt-4` and safety factor `-1/8192` the effective
limit is `-1 ≤ 0`, yet `process_file` on a 10-character text returns
successfully (`min_chunks = ceil(10 / -1) = -10`, `range(-10)` is empty), with
an empty chunk list and no error of any kind. -/
theorem C2_counterexample :
    get_effective_limit "gpt-4" ⟨-1, 8192⟩ = .ok (-1) ∧
    process_file (fun s => s.length) "gpt-4" ⟨-1, 8192⟩ c2Text none
      = .ok ⟨[], 0, 0, none⟩ := by
  decide

/-- C2 (amended): when the effective token limit is exactly `0`, planning fails
immediately and synchronously with a `ZeroDivisionError` (the code has no
`ConfigurationError`; the division `ceil(total_tokens / 0)` at source line 64
is what raises), and no chunks are produced; a negative effective limit,
however, can yield a successful run with zero chunks (witness
`C2_counterexample`). -/
theorem C2_zero_limit_amended (est : Str → Nat) (model : String) (sf : PyFloat)
    (content : Str) (req : Option Int)
    (h : get_effective_limit model sf = .ok 0) :
    process_file est model sf content req = .error .zeroDivisionError := by
  rw [process_file_of_limit est model sf content req 0 h, if_pos rfl]

/-- C2 (witness for the amended theorem): `gpt-4` with safety factor
`1/100000` gives `int(8192/100000) = 0`, and the run fails with
`ZeroDivisionError`. -/
theorem C2_zero_limit_amended_witness :
    process_file (fun s => s.length) "gpt-4" ⟨1, 100000⟩ ("abc".toList) none
      = .error .zeroDivisionError :=
  C2_zero_limit_amended (fun s => s.length) "gpt-4" ⟨1, 100000⟩ ("abc".toList) none (by decide)

/-- C3 (counterexample): the produced chunk count can be smaller than
`ceil(estimate_tokens(text) / effective_limit)`.  With an estimator returning 9
tokens for the 10-character text `c3Text` and effective limit 1, the plan asks
for 9 chunks of `ceil(10/9) = 2` characters, but the loop covers the text after
5 chunks and stops early: 5 < 9. -/
theorem C3_counterexample :
    get_effective_limit "gpt-3.5-turbo" ⟨1, 4096⟩ = .ok 1 ∧
    ceilQ ((fun (s : Str) => s.length - 1) c3Text) 1 = 9 ∧
    (process_file (fun s => s.length - 1) "gpt-3.5-turbo" ⟨1, 4096⟩ c3Text none).map
        (fun r => r.chunks.length) = .ok 5 := by
  decide

/-- C3 (amended): the planner never plans fewer chunks than the token budget
requires — `num_chunks = max(requested or min, min_chunks)` always satisfies
`num_chunks ≥ ceil(estimate_tokens(text) / effective_limit)` — and the number
of chunks actually produced never exceeds the plan; but the produced count can
fall below the bound when the loop reaches the end of text before all planned
chunks are emitted (witness `C3_counterexample`). -/
theorem C3_min_chunks_amended (est : Str → Nat) (model : String) (sf : PyFloat) (content : Str)
    (req : Option Int) (r : ProcessResult) (limit : Int)
    (hl : get_effective_limit model sf = .ok limit)
    (h : process_file est model sf content req = .ok r) :
    ceilQ (est content) limit ≤ num_chunks_planned (est content) limit req ∧
    r.chunks.length ≤ (num_chunks_planned (est content) limit req).toNat := by
  obtain ⟨limit', hg, h0, hn, hr⟩ := process_file_ok est model sf content req r h
  have hll : limit' = limit := Except.ok.inj (hg.symm.trans hl)
  subst hll
  subst hr
  constructor
  · unfold num_chunks_planned
    cases req with
    | none => exact le_rfl
    | some n =>
      dsimp only
      split <;> omega
  · exact chunkLoopGo_length_le est content _ _ _ 0

/-- C3 (witness for the amended theorem): one-chunk run over `"wxyz"`. -/
theorem C3_min_chunks_amended_witness :
    ceilQ ((fun (s : Str) => s.length) c3wText) 4096
      ≤ num_chunks_planned ((fun (s : Str) => s.length) c3wText) 4096 none ∧
    c3wRes.chunks.length
      ≤ (num_chunks_planned ((fun (s : Str) => s.length) c3wText) 4096 none).toNat :=
  C3_min_chunks_amended (fun s => s.length) "gpt-4" ⟨1, 2⟩ c3wText none c3wRes 4096
    (by decide) (by decide)

/-- C4 (counterexample): processing the empty text with no requested chunk
count does raise a division error.  `estimate_tokens("") = 0` gives
`min_chunks = 0`, hence `num_chunks = 0`, and
`math.ceil(len(content) / num_chunks)` (source line 75) raises
`ZeroDivisionError`, contrary to the claim. -/
theorem C4_counterexample :
    process_file (fun _ => 0) "gpt-4" ⟨1, 2⟩ ([] : Str) none = .error .zeroDivisionError := by
  decide

/-- C4 (amended): on empty text with a zero token estimate, a run with a
requested chunk count `n ≥ 1` yields zero chunks and raises no error, but a
run with no requested chunk count computes `num_chunks = 0` and raises
`ZeroDivisionError` at the `chunk_size` division (witness
`C4_counterexample`). -/
theorem C4_empty_amended (est : Str → Nat) (model : String) (sf : PyFloat) (limit : Int)
    (hl : get_effective_limit model sf = .ok limit) (h0 : limit ≠ 0) (hez : est [] = 0) :
    process_file est model sf [] none = .error .zeroDivisionError ∧
    ∀ n : Int, 1 ≤ n →
      (process_file est model sf [] (some n)).map (fun r => r.chunks) = .ok [] := by
  have hmc : ceilQ (est ([] : Str)) limit = 0 := by
    rw [hez]
    simp [ceilQ, Int.zero_fdiv]
  constructor
  · have hplan : num_chunks_planned (est ([] : Str)) limit none = 0 := by
      unfold num_chunks_planned
      exact hmc
    rw [process_file_of_limit est model sf [] none limit hl, if_neg h0, hplan, if_pos rfl]
  · intro n hn
    have hplan : num_chunks_planned (est ([] : Str)) limit (some n) = n := by
      unfold num_chunks_planned
      dsimp only
      rw [hmc, if_neg (by omega : ¬ n < 0)]
    rw [process_file_of_limit est model sf [] (some n) limit hl, if_neg h0, hplan,
      if_neg (by omega : ¬ n = 0)]
    simp [Except.map, mkResult, chunkLoopGo_nil, total_lines, count_nl]

/-- C4 (witness for the amended theorem): empty text under `gpt-4` with the
default safety factor; requested count 1 gives zero chunks. -/
theorem C4_empty_amended_witness :
    process_file (fun _ => 0) "gpt-4" ⟨1, 2⟩ [] none = .error .zeroDivisionError ∧
    (process_file (fun _ => 0) "gpt-4" ⟨1, 2⟩ [] (some 1)).map (fun r => r.chunks) = .ok [] := by
  have h := C4_empty_amended (fun _ => 0) "gpt-4" ⟨1, 2⟩ 4096 (by decide) (by decide) rfl
  exact ⟨h.1, h.2 1 (by decide)⟩

/-- C5 (confirmed): for a chunk that is not the last planned one (`i < nc - 1`)
whose naive boundary `pos + chunk_size` lands strictly before the end of text,
the loop's end position is characterized by the markers in the proposed chunk
`content[pos : pos + chunk_size]`: if some marker (`".\n"` or `"\n\n"`) occurs
and `j` is the occurrence with the largest offset, the boundary moves to
exactly 2 characters past its start (`pos + j + 2`); if no marker occurs, the
naive boundary `pos + chunk_size` is kept unchanged. -/
theorem C5_smart_boundary (content : Str) (cs nc i pos : Nat)
    (hi : i < nc - 1) (hnaive : pos + cs < content.length) :
    (∀ j, isLastMarker ((content.drop pos).take cs) j →
        step_end content cs nc i pos = pos + j + 2) ∧
    ((∀ j, ¬ isMarkerAt ((content.drop pos).take cs) j) →
        step_end content cs nc i pos = pos + cs) := by
  have hmin : min (pos + cs) content.length = pos + cs := min_eq_left (Nat.le_of_lt hnaive)
  have hcond : i < nc - 1 ∧ min (pos + cs) content.length < content.length := by
    refine ⟨hi, ?_⟩
    rw [hmin]
    exact hnaive
  have hstep : step_end content cs nc i pos = adjust_end content pos (pos + cs) := by
    unfold step_end
    rw [if_pos hcond, hmin]
  have hchunk : pos + cs - pos = cs := by omega
  constructor
  · intro j hj
    rw [hstep]
    refine adjust_end_eq_of_isLastMarker content pos (pos + cs) j ?_
    rw [hchunk]
    exact hj
  · intro hno
    rw [hstep]
    refine adjust_end_eq_of_no_marker content pos (pos + cs) ?_
    simp only [hchunk]
    exact hno

/-- C5 (witness): on `"ab.\ncdefXY"` with `chunk_size = 6`, `num_chunks = 3`,
first chunk (`i = 0`): the proposed chunk `"ab.\ncd"` has its last (only)
marker `".\n"` at offset 2, and the boundary moves to `0 + 2 + 2 = 4`. -/
theorem C5_smart_boundary_witness : step_end c5wText 6 3 0 0 = 0 + 2 + 2 := by
  refine (C5_smart_boundary c5wText 6 3 0 0 (by decide) (by decide)).1 2 ?_
  constructor
  · exact Or.inl (by decide)
  · intro k hk hmk
    have hb : k + 2 ≤ ((c5wText.drop 0).take 6).length := by
      rcases hmk with h1 | h1
      · exact occursAt_length_le _ _ _ (by decide) h1
      · exact occursAt_length_le _ _ _ (by decide) h1
    have hlen : ((c5wText.drop 0).take 6).length = 6 := by decide
    rw [hlen] at hb
    have hk4 : k ≤ 4 := by omega
    interval_cases k
    · exact absurd hmk (by decide)
    · exact absurd hmk (by decide)

/-- C6 (confirmed): the validator never halts processing.  Every successful
run returns the full chunk list together with a validation verdict:
`original_lines` is the newline count of the whole document,
`total_chunk_lines` is the sum of the materialized chunks' line counts, no
warning is reported when they are equal, and when they differ a non-fatal
warning carrying exactly the discrepancy `original - sum` is reported while
the chunk list is still returned unchanged. -/
theorem C6_validator (est : Str → Nat) (model : String) (sf : PyFloat) (content : Str)
    (req : Option Int) (r : ProcessResult)
    (h : process_file est model sf content req = .ok r) :
    r.original_lines = count_nl content ∧
    r.total_chunk_lines = (r.chunks.map fun c => count_nl c.content).sum ∧
    (r.original_lines = r.total_chunk_lines → r.lines_warning = none) ∧
    (r.original_lines ≠ r.total_chunk_lines →
      r.lines_warning = some ((r.original_lines : Int) - (r.total_chunk_lines : Int))) := by
  obtain ⟨limit, hg, h0, hn, hr⟩ := process_file_ok est model sf content req r h
  subst hr
  refine ⟨rfl, ?_, ?_, ?_⟩
  · show total_lines (chunkLoopGo est content _ _ _ 0)
      = ((chunkLoopGo est content _ _ _ 0).map fun c => count_nl c.content).sum
    unfold total_lines
    refine congrArg List.sum (List.map_congr_left ?_)
    intro c hc
    exact ((chunkLoopGo_mem est content _ _ _ 0 (Nat.zero_le _)) c hc).2.2.2.2.2.1
  · intro he
    rw [mkResult_warning, if_pos he]
  · intro hne
    rw [mkResult_warning, if_neg hne]

/-- C6 (witness): the run on `"a.\nb"` (one chunk, matching line counts, no
warning). -/
theorem C6_validator_witness :
    c6Res.original_lines = count_nl c6Text ∧
    c6Res.total_chunk_lines = (c6Res.chunks.map fun c => count_nl c.content).sum ∧
    (c6Res.original_lines = c6Res.total_chunk_lines → c6Res.lines_warning = none) ∧
    (c6Res.original_lines ≠ c6Res.total_chunk_lines →
      c6Res.lines_warning
        = some ((c6Res.original_lines : Int) - (c6Res.total_chunk_lines : Int))) :=
  C6_validator (fun s => s.length) "gpt-4" ⟨1, 2⟩ c6Text none c6Res (by decide)

/-- C7 (confirmed): looking up a model name absent from the static registry
fails the run: `get_effective_limit` raises the registry-lookup error
(`KeyError`, the failure the design documents as its configuration error) and
not the division error, `process_file` propagates it immediately, and no
chunks are produced. -/
theorem C7_unknown_model (est : Str → Nat) (model : String) (sf : PyFloat) (content : Str)
    (req : Option Int) (h : context_limits.lookup model = none) :
    get_effective_limit model sf = .error .keyError ∧
    process_file est model sf content req = .error .keyError := by
  have hg : get_effective_limit model sf = .error .keyError := by
    unfold get_effective_limit
    rw [h]
  exact ⟨hg, process_file_of_err est model sf content req .keyError hg⟩

/-- C7 (witness): the unknown model name `"gpt-5"`. -/
theorem C7_unknown_model_witness :
    get_effective_limit "gpt-5" ⟨1, 2⟩ = .error .keyError ∧
    process_file (fun s => s.length) "gpt-5" ⟨1, 2⟩ ("abc".toList) none = .error .keyError :=
  C7_unknown_model (fun s => s.length) "gpt-5" ⟨1, 2⟩ ("abc".toList) none (by decide)

/-- C8 (confirmed, with the claim's own early-stop proviso): for a fixed text,
estimator and effective limit, increasing the requested chunk count never
decreases the number of chunks actually produced, provided the larger run is
not cut short by the step-7 early stop (it emits its full plan).  The produced
count of the smaller request is bounded by its plan, plans are monotone in the
request, and the larger run realizes its plan. -/
theorem C8_monotone (est : Str → Nat) (model : String) (sf : PyFloat) (content : Str)
    (limit : Int) (hl : get_effective_limit model sf = .ok limit)
    (n1 n2 : Int) (h12 : n1 ≤ n2) (r1 r2 : ProcessResult)
    (hr1 : process_file est model sf content (some n1) = .ok r1)
    (_hr2 : process_file est model sf content (some n2) = .ok r2)
    (hfull : r2.chunks.length = (num_chunks_planned (est content) limit (some n2)).toNat) :
    r1.chunks.length ≤ r2.chunks.length := by
  obtain ⟨l1, hg1, h01, hn1, he1⟩ := process_file_ok est model sf content (some n1) r1 hr1
  have hll : limit = l1 := Except.ok.inj (hl.symm.trans hg1)
  subst hll
  have hlen1 : r1.chunks.length ≤ (num_chunks_planned (est content) limit (some n1)).toNat := by
    subst he1
    exact chunkLoopGo_length_le est content _ _ _ 0
  have hmono : num_chunks_planned (est content) limit (some n1)
      ≤ num_chunks_planned (est content) limit (some n2) := by
    unfold num_chunks_planned
    dsimp only
    split <;> split <;> omega
  calc r1.chunks.length
      ≤ (num_chunks_planned (est content) limit (some n1)).toNat := hlen1
    _ ≤ (num_chunks_planned (est content) limit (some n2)).toNat := Int.toNat_le_toNat hmono
    _ = r2.chunks.length := hfull.symm

/-- C8 (witness): `"abcdef"` under `gpt-4`, requests 1 and 2; the larger run
emits its full 2-chunk plan, and 1 ≤ 2. -/
theorem C8_monotone_witness : c8Res1.chunks.length ≤ c8Res2.chunks.length :=
  C8_monotone (fun s => s.length) "gpt-4" ⟨1, 2⟩ c8Text 4096 (by decide) 1 2 (by decide)
    c8Res1 c8Res2 (by decide) (by decide) (by decide)

/-- C9 (confirmed): constructing a `ChunkProcessor` with `safety_factor` equal
to `0` (or `0.0`) silently discards the supplied value — it is combined with
`or` — and falls back to the `CHUNK_SAFETY_FACTOR` environment variable or the
default `0.5`, rather than using `0` or raising an error; every nonzero
supplied value, including negative values and values greater than 1 (no
`0 < f ≤ 1` validation exists), is used exactly as given. -/
theorem C9_safety_factor (env : Option PyFloat) :
    (∀ f : PyFloat, f.num = 0 →
      init_safety_factor (some f) env = env.getD DEFAULT_SAFETY_FACTOR) ∧
    (∀ f : PyFloat, f.num ≠ 0 → init_safety_factor (some f) env = f) := by
  constructor
  · intro f hf
    show (if f.num = 0 then env.getD DEFAULT_SAFETY_FACTOR else f)
      = env.getD DEFAULT_SAFETY_FACTOR
    rw [if_pos hf]
  · intro f hf
    show (if f.num = 0 then env.getD DEFAULT_SAFETY_FACTOR else f) = f
    rw [if_neg hf]

/-- C9 (witness): with the environment variable set to `3/4`, a supplied `0.0`
is replaced by the environment value, and a supplied negative `-2.0` is kept. -/
theorem C9_safety_factor_witness :
    init_safety_factor (some ⟨0, 1⟩) (some ⟨3, 4⟩) = ⟨3, 4⟩ ∧
    init_safety_factor (some ⟨-2, 1⟩) (some ⟨3, 4⟩) = ⟨-2, 1⟩ :=
  ⟨(C9_safety_factor (some ⟨3, 4⟩)).1 ⟨0, 1⟩ rfl,
   (C9_safety_factor (some ⟨3, 4⟩)).2 ⟨-2, 1⟩ (by decide)⟩

/-- C10 (confirmed): on non-empty text with a planned chunk count
`num_chunks ≥ 1`, every produced chunk is non-empty and spans at most
`ceil(len(text) / num_chunks)` characters (the adjusted end never exceeds the
naive end), the loop makes strict forward progress (`start < stop` for every
chunk), and at most `num_chunks` chunks are emitted. -/
theorem C10_chunk_bounds (est : Str → Nat) (model : String) (sf : PyFloat) (content : Str)
    (req : Option Int) (r : ProcessResult) (limit nc : Int)
    (hl : get_effective_limit model sf = .ok limit)
    (hnc : num_chunks_planned (est content) limit req = nc)
    (h1 : 1 ≤ nc) (hcont : content ≠ [])
    (h : process_file est model sf content req = .ok r) :
    r.chunks.length ≤ nc.toNat ∧
    ∀ c ∈ r.chunks, 0 < c.content.length ∧
      c.content.length ≤ (ceilQ content.length nc).toNat ∧ c.start < c.stop := by
  obtain ⟨limit', hg, h0, hn, hr⟩ := process_file_ok est model sf content req r h
  have hll : limit' = limit := Except.ok.inj (hg.symm.trans hl)
  subst hll
  rw [hnc] at hr
  subst hr
  have hlen1 : 1 ≤ content.length := List.length_pos.mpr hcont
  have hcs1 : 1 ≤ ceilQ content.length nc := one_le_ceilQ content.length nc hlen1 h1
  have hcs : 1 ≤ (ceilQ content.length nc).toNat := by omega
  constructor
  · exact chunkLoopGo_length_le est content _ _ _ 0
  · intro c hc
    have hm := chunkLoopGo_mem est content _ _ _ 0 (Nat.zero_le _) c hc
    have hp := chunkLoopGo_start_lt_stop est content _ _ hcs _ 0 c hc
    refine ⟨?_, ?_, hp⟩
    · rw [hm.2.2.2.2.1]
      omega
    · rw [hm.2.2.2.2.1]
      exact hm.2.2.2.1

/-- C10 (witness): `"abcd"` split into 2 chunks of at most `ceil(4/2) = 2`
characters each. -/
theorem C10_chunk_bounds_witness :
    c10Res.chunks.length ≤ (2 : Int).toNat ∧
    ∀ c ∈ c10Res.chunks, 0 < c.content.length ∧
      c.content.length ≤ (ceilQ c10Text.length 2).toNat ∧ c.start < c.stop :=
  C10_chunk_bounds (fun s => s.length) "gpt-4" ⟨1, 2⟩ c10Text (some 2) c10Res 4096 2
    (by decide) (by decide) (by decide) (by decide) (by decide)
